import Mathlib

/-
Verification development for the symbol-database core of zchee/clang-database.

The Go sources embedded here are src/symbol/type.go (authoritative), the
flatbuffers schema src/unnamed/part_000, and the older draft
src/unnamed/part_001.  The flatbuffers builder/reader library is third-party
code; its documented observable behaviour (a finished buffer holds the field
values and vectors written bottom-up, vectors read back in forward order) is
modelled by the Flat* record types below: serializing an entity produces the
Flat* record holding exactly the values the Go code writes into the builder,
and view-mode accessors decode from a Flat* record.  A method that in Go
dereferences a nil backing pointer (a fault) is modelled as returning none.

The hashing module (ToID, ToFileID, ID.String; package internal/symbol) is
not under src/.  It is modelled from the spec, section 4.2: both hashes are
pure and deterministic, collision-resistant (modelled as injective), and the
fixed-form identifier is distinct from the human-readable input (modelled by
prefixing a marker, so the rendered string of a hash always differs from the
hashed input).

Go uint32 fields (Line, Col, Offset) carry through the code unchanged with
no arithmetic performed on them, so Nat is a faithful carrier.  time.Time
values are only ever observed through Unix(), so they are carried as Int
unix seconds.  Go maps are carried as association lists in insertion order;
Go map iteration order is unspecified, and insertion order is one admissible
schedule of it (the round-trip claim quantifies modulo this order).
-/

namespace ClangDB

/-- Modelled from the spec: the rendered form of a fixed-width hash of s.
Deterministic, injective, and distinct from the input s (section 4.2 of the
spec; the real implementation is blake2b, absent from src/). -/
def hashString (s : String) : String := "blake2b:" ++ s

/-- Modelled from the spec: opaque symbol identifier produced by the hashing
module (internal/symbol ID, absent from src/). -/
structure ID where
  val : String
deriving DecidableEq

/-- Modelled from the spec: ToID hashes a raw USR string into a symbol ID. -/
def ToID (s : String) : ID := ⟨hashString s⟩

/-- Modelled from the spec: the String method renders an ID. -/
def ID.String (i : ID) : String := i.val

/-- Modelled from the spec: opaque file identifier (internal/symbol FileID,
absent from src/). -/
structure FileID where
  val : String
deriving DecidableEq

/-- Modelled from the spec: ToFileID hashes a cleaned path into a FileID. -/
def ToFileID (s : String) : FileID := ⟨hashString s⟩

/-- Modelled from the spec: the String method renders a FileID. -/
def FileID.String (i : FileID) : String := i.val

/-- Encoded Location table: the five values Location.serialize writes into
the builder (src/symbol/type.go lines 533 to 546). -/
structure FlatLocation where
  fileName : String := ""
  line : Nat := 0
  col : Nat := 0
  offset : Nat := 0
  usr : String := ""
deriving DecidableEq

/-- Location of a symbol (src/symbol/type.go lines 488 to 496).  The
in-memory fields default to Go zero values; location is the backing-buffer
pointer, none in build mode. -/
structure Location where
  fileName : String := ""
  line : Nat := 0
  col : Nat := 0
  offset : Nat := 0
  usr : String := ""
  location : Option FlatLocation := none
deriving DecidableEq

/-- The Go zero value of Location. -/
def Location.zero : Location := {}

/-- FileName accessor (type.go lines 502 to 507): falls back to the
in-memory field exactly when the backing pointer is nil. -/
def Location.FileName (l : Location) : String :=
  match l.location with
  | none => l.fileName
  | some fl => fl.fileName

/-- Line accessor (type.go lines 510 to 512): reads only the backing buffer;
a nil backing pointer faults, modelled as none. -/
def Location.Line (l : Location) : Option Nat :=
  l.location.map (fun fl => fl.line)

/-- Col accessor (type.go lines 515 to 517): reads only the backing buffer. -/
def Location.Col (l : Location) : Option Nat :=
  l.location.map (fun fl => fl.col)

/-- Offset accessor (type.go lines 520 to 522): reads only the backing
buffer. -/
def Location.Offset (l : Location) : Option Nat :=
  l.location.map (fun fl => fl.offset)

/-- USR accessor (type.go lines 525 to 530): falls back to the in-memory
field exactly when the backing pointer is nil. -/
def Location.USR (l : Location) : String :=
  match l.location with
  | none => l.usr
  | some fl => fl.usr

/-- The reflect.DeepEqual call inside isExist of src/symbol/type.go lines
549 to 551.  The receiver l there has pointer type while the literal is a
plain Location value; DeepEqual reports values of distinct types as never
deeply equal, so this comparison is false for every receiver. -/
def reflectDeepEqualPtrVal (_l : Location) : Bool := false

/-- isExist of src/symbol/type.go (pointer receiver): the negation of a
constantly false comparison, hence constantly true. -/
def Location.isExist (l : Location) : Bool := !(reflectDeepEqualPtrVal l)

/-- isExist of src/unnamed/part_001 lines 437 to 439 (value receiver):
DeepEqual compares two Location values fieldwise, true exactly on the zero
value, and isExist negates it. -/
def Location.isExistVal (l : Location) : Bool := !(decide (l = Location.zero))

/-- Location.serialize (type.go lines 533 to 546): writes the five in-memory
fields into the builder. -/
def Location.serialize (l : Location) : FlatLocation :=
  { fileName := l.fileName, line := l.line, col := l.col,
    offset := l.offset, usr := l.usr }

/-- A view-mode Location as materialized by the decoding accessors: only the
backing pointer is populated. -/
def Location.ofView (fl : FlatLocation) : Location :=
  { location := some fl }

/-- Encoded Caller table (type.go lines 461 to 474): location plus the
function-call flag written as byte 0 or 1. -/
structure FlatCaller where
  location : FlatLocation := {}
  funcCall : Nat := 0
deriving DecidableEq

/-- Caller of a symbol (type.go lines 437 to 442). -/
structure Caller where
  location : Location := {}
  funcCall : Bool := false
  caller : Option FlatCaller := none
deriving DecidableEq

/-- Caller.serialize (type.go lines 461 to 474). -/
def Caller.serialize (c : Caller) : FlatCaller :=
  { location := c.location.serialize,
    funcCall := if c.funcCall then 1 else 0 }

/-- A view-mode Caller with only the backing pointer populated. -/
def Caller.ofView (fc : FlatCaller) : Caller :=
  { caller := some fc }

/-- Location accessor of Caller (type.go lines 448 to 453); a nil backing
pointer faults. -/
def Caller.Location (c : Caller) : Option Location :=
  c.caller.map (fun fc => Location.ofView fc.location)

/-- FuncCall accessor (type.go lines 456 to 458): the stored byte compared
against zero. -/
def Caller.FuncCall (c : Caller) : Option Bool :=
  c.caller.map (fun fc => decide (fc.funcCall ≠ 0))

/-- Encoded Info table (type.go lines 304 to 344): the stored ID string, the
Decls vector (absent when empty, which reads back as the empty vector), the
always-written Def, and the Callers vector. -/
structure FlatInfo where
  id : String := ""
  decls : List FlatLocation := []
  def_ : FlatLocation := {}
  callers : List FlatCaller := []
deriving DecidableEq

/-- Symbol record (type.go lines 291 to 298).  The Go field named def is
spelled def_. -/
structure Info where
  id : ID := ⟨""⟩
  decls : List Location := []
  def_ : Location := {}
  callers : List Caller := []
  info : Option FlatInfo := none
deriving DecidableEq

/-- Info.serialize (type.go lines 304 to 344): writes the rendered ID string
and the three child collections bottom-up; the builder emits vector elements
in reverse so that readers see them in forward order, hence the lists keep
their order here. -/
def Info.serialize (i : Info) : FlatInfo :=
  { id := i.id.String,
    decls := i.decls.map Location.serialize,
    def_ := i.def_.serialize,
    callers := i.callers.map Caller.serialize }

/-- A view-mode Info with only the backing pointer populated, as built by
File.Symbols in view mode (type.go line 109). -/
def Info.ofView (fi : FlatInfo) : Info :=
  { info := some fi }

/-- ID accessor (type.go lines 347 to 349): re-applies ToID to the stored ID
string; a nil backing pointer faults. -/
def Info.ID (i : Info) : Option ID :=
  i.info.map (fun fi => ToID fi.id)

/-- Decls accessor (type.go lines 352 to 364): materializes one view
Location per stored element; element reads inside the vector bounds always
succeed. -/
def Info.Decls (i : Info) : Option (List Location) :=
  i.info.map (fun fi => fi.decls.map Location.ofView)

/-- Def accessor (type.go lines 367 to 372). -/
def Info.Def (i : Info) : Option Location :=
  i.info.map (fun fi => Location.ofView fi.def_)

/-- Callers accessor (type.go lines 375 to 387). -/
def Info.Callers (i : Info) : Option (List Caller) :=
  i.info.map (fun fi => fi.callers.map Caller.ofView)

/-- Encoded Header table (type.go lines 418 to 427): rendered FileID string
and the unix-seconds mtime. -/
structure FlatHeader where
  fileID : String := ""
  mtime : Int := 0
deriving DecidableEq

/-- Included header (type.go lines 397 to 402).  The time.Time field is
carried as its unix seconds, the only way the code observes it. -/
structure Header where
  fileid : FileID := ⟨""⟩
  mtime : Int := 0
  header : Option FlatHeader := none
deriving DecidableEq

/-- Header.serialize (type.go lines 418 to 427). -/
def Header.serialize (h : Header) : FlatHeader :=
  { fileID := h.fileid.String, mtime := h.mtime }

/-- A view-mode Header with only the backing pointer populated. -/
def Header.ofView (fh : FlatHeader) : Header :=
  { header := some fh }

/-- FileID accessor (type.go lines 408 to 410): re-applies ToFileID to the
stored string; a nil backing pointer faults. -/
def Header.FileID (h : Header) : Option FileID :=
  h.header.map (fun fh => ToFileID fh.fileID)

/-- Mtime accessor (type.go lines 413 to 415). -/
def Header.Mtime (h : Header) : Option Int :=
  h.header.map (fun fh => fh.mtime)

/-- Encoded File root table (type.go lines 227 to 280). -/
structure FlatFile where
  name : String := ""
  flags : List String := []
  translationUnit : List Nat := []
  symbols : List FlatInfo := []
  headers : List FlatHeader := []
deriving DecidableEq

/-- Lookup in an association list modelling a Go map. -/
def mapLookup {κ α : Type} [DecidableEq κ] : List (κ × α) → κ → Option α
  | [], _ => none
  | (k2, v) :: rest, k => if k = k2 then some v else mapLookup rest k

/-- Assignment in an association list modelling a Go map: replaces the entry
in place when the key is present, appends otherwise. -/
def mapAssign {κ α : Type} [DecidableEq κ] : List (κ × α) → κ → α → List (κ × α)
  | [], k, v => [(k, v)]
  | (k2, v2) :: rest, k, v =>
    if k = k2 then (k, v) :: rest else (k2, v2) :: mapAssign rest k v

/-- Key uniqueness of an association list modelling a Go map. -/
def WFMap {κ α : Type} [DecidableEq κ] (m : List (κ × α)) : Prop :=
  (m.map Prod.fst).Nodup

/-- A C or C++ source file record (type.go lines 28 to 39).  headers is the
Go slice of Header pointers, so entries are optional; file is the backing
buffer pointer, none in build mode. -/
structure File where
  name : String := ""
  flags : List String := []
  translationUnit : List Nat := []
  locations : List (Location × ID) := []
  symbols : List (ID × Info) := []
  headers : List (Option Header) := []
  file : Option FlatFile := none
deriving DecidableEq

/-- NewFile (type.go lines 45 to 53). -/
def NewFile (name : String) (flags : List String) : File :=
  { name := name, flags := flags }

/-- GetRootAsFile (type.go lines 56 to 60): opens a buffer as a pure view. -/
def GetRootAsFile (fl : FlatFile) : File :=
  { file := some fl }

/-- Name accessor (type.go lines 63 to 68): in-memory name when non-empty,
otherwise decode from the buffer; a nil backing pointer faults. -/
def File.Name (f : File) : Option String :=
  if f.name ≠ "" then some f.name else f.file.map (fun fl => fl.name)

/-- Flags accessor (type.go lines 71 to 83). -/
def File.Flags (f : File) : Option (List String) :=
  if f.flags.length > 0 then some f.flags else f.file.map (fun fl => fl.flags)

/-- TranslationUnit accessor (type.go lines 86 to 91). -/
def File.TranslationUnit (f : File) : Option (List Nat) :=
  if f.translationUnit.length > 0 then some f.translationUnit
  else f.file.map (fun fl => fl.translationUnit)

/-- Symbols accessor (type.go lines 94 to 114).  Build branch: the slice is
allocated with length n and the n map values are then appended, so the
result is n nil pointers followed by the values.  View branch: the slice is
allocated with length n and filled by index; in-bounds vector reads always
succeed. -/
def File.Symbols (f : File) : Option (List (Option Info)) :=
  if f.symbols.length > 0 then
    some (List.replicate f.symbols.length none
      ++ f.symbols.map (fun p => some p.2))
  else
    f.file.map (fun fl => fl.symbols.map (fun s => some (Info.ofView s)))

/-- Headers accessor (type.go lines 117 to 133). -/
def File.Headers (f : File) : Option (List (Option Header)) :=
  if f.headers.length > 0 then some f.headers
  else f.file.map (fun fl => fl.headers.map (fun h => some (Header.ofView h)))

/-- AddTranslationUnit (type.go lines 136 to 138). -/
def File.AddTranslationUnit (f : File) (buf : List Nat) : File :=
  { f with translationUnit := buf }

/-- addSymbol (type.go lines 141 to 156): fetch or create the Info for the
hash of the USR, append loc to its Decls unconditionally, overwrite Def when
the def argument is judged existing, and record loc in both maps. -/
def File.addSymbol (f : File) (loc def_ : Location) : File :=
  let id := ToID loc.usr
  let sym : Info :=
    match mapLookup f.symbols id with
    | some s => s
    | none => { id := id }
  let sym : Info := { sym with decls := sym.decls ++ [loc] }
  let sym : Info := if def_.isExist then { sym with def_ := def_ } else sym
  { f with
    locations := mapAssign f.locations loc id,
    symbols := mapAssign f.symbols id sym }

/-- AddDecl (type.go lines 159 to 161): addSymbol with the zero Location as
the definition. -/
def File.AddDecl (f : File) (loc : Location) : File :=
  f.addSymbol loc {}

/-- AddDefinition (type.go lines 164 to 166). -/
def File.AddDefinition (f : File) (loc def_ : Location) : File :=
  f.addSymbol loc def_

/-- Models Go path/filepath.Clean restricted to the inputs this development
evaluates it on: Clean of the empty string is a dot per its documentation,
and an already-clean path is left unchanged. -/
def filepathClean (p : String) : String :=
  if p = "" then "." else p

/-- Models Go path/filepath.Base for slash-separated paths: the empty path
gives a dot, a path of only separators gives the separator, otherwise
trailing separators are stripped and the part after the last separator is
returned. -/
def filepathBase (p : String) : String :=
  if p = "" then "."
  else
    let stripped := p.data.reverse.dropWhile (fun c => c == '/')
    let b := (stripped.takeWhile (fun c => c != '/')).reverse
    if b.isEmpty then "/" else ⟨b⟩

/-- notExistHeaderName (type.go lines 169 to 172). -/
def notExistHeaderName (headPath : String) : String :=
  "IDoNotReallyExist-" ++ filepathBase headPath

/-- The collaborator header handle consumed by AddHeader (spec section 6): a
parser file exposing a resolved name and a modification time. -/
structure ClangFile where
  name : String := ""
  time : Int := 0
deriving DecidableEq

/-- AddHeader (type.go lines 175 to 186).  The now argument is the
wall-clock reading the empty-name branch captures with time.Now().  Note the
sentinel is built from the cleaned resolved name of the handle, which that
branch has just tested to be empty; the includePath parameter is unused. -/
def File.AddHeader (f : File) (_includePath : String) (headerFile : ClangFile)
    (now : Int) : File :=
  let hdr : Header :=
    if headerFile.name = "" then
      { fileid := ToFileID (notExistHeaderName (filepathClean headerFile.name)),
        mtime := now }
    else
      { fileid := ToFileID (filepathClean headerFile.name),
        mtime := headerFile.time }
  { f with headers := f.headers ++ [some hdr] }

/-- AddCaller (type.go lines 189 to 203): fetch or create the Info for the
hash of the USR and append one Caller; Decls, Def and the locations index
are not touched.  The def argument is unused, as in the source. -/
def File.AddCaller (f : File) (sym _def : Location) (funcCall : Bool) : File :=
  let id := ToID sym.usr
  let syms : Info :=
    match mapLookup f.symbols id with
    | some s => s
    | none => { id := id }
  let syms : Info :=
    { syms with callers := syms.callers ++ [{ location := sym, funcCall := funcCall }] }
  { f with symbols := mapAssign f.symbols id syms }

/-- Serialize (type.go lines 227 to 280): reads name and translation unit
through the fallback accessors (a build-mode file with an empty one faults,
modelled as none), then writes flags, symbols and headers from the in-memory
fields bottom-up.  A nil Header pointer in the slice would fault inside its
serialize call. -/
def File.Serialize (f : File) : Option FlatFile := do
  let fname ← f.Name
  let tu ← f.TranslationUnit
  let hdrs ← f.headers.mapM (fun oh => oh)
  pure { name := fname,
         flags := f.flags,
         translationUnit := tu,
         symbols := f.symbols.map (fun p => p.2.serialize),
         headers := hdrs.map Header.serialize }

/-- One step of the symbol-table rebuild inside Unmarshal (type.go lines 210
to 218): s.ID() re-applies ToID to the stored ID string and the decoded
collections are materialized eagerly; a nil entry or missing backing
pointer faults. -/
def unmarshalInfo (oi : Option Info) : Option (ID × Info) := do
  let i ← oi
  let fi ← i.info
  pure (ToID fi.id,
    { id := ToID fi.id,
      decls := fi.decls.map Location.ofView,
      def_ := Location.ofView fi.def_,
      callers := fi.callers.map Caller.ofView,
      info := some fi })

/-- The sequential rebuild loop of Unmarshal over the decoded symbol list
(type.go lines 210 to 218), faulting at the first nil or buffer-less
entry. -/
def unmarshalInfos : List (Option Info) → Option (List (ID × Info))
  | [] => some []
  | oi :: rest => do
    let p ← unmarshalInfo oi
    let ps ← unmarshalInfos rest
    pure (p :: ps)

/-- Unmarshal (type.go lines 206 to 224): rebuilds the in-memory fields from
the backing buffer.  The headers slice is allocated with the length of the
decoded list and the entries are then appended, so it gains that many
leading nil entries. -/
def File.Unmarshal (f : File) : Option File := do
  let fl ← f.file
  let symsList ← f.Symbols
  let symPairs ← unmarshalInfos symsList
  let hdrsList ← f.Headers
  pure { f with
         name := fl.name,
         translationUnit := fl.translationUnit,
         symbols := symPairs.foldl (fun m p => mapAssign m p.1 p.2) [],
         headers := List.replicate hdrsList.length none ++ hdrsList }

/-- Kind of one completion-candidate chunk as switched on by
CompleteItem.Marshal (type.go lines 642 to 650): typed text, result type, or
anything else. -/
inductive ChunkKind where
  | typedText
  | resultType
  | other
deriving DecidableEq

/-- One completion-candidate chunk: kind plus text. -/
structure Chunk where
  kind : ChunkKind := ChunkKind.other
  text : String := ""
deriving DecidableEq

/-- Encoded CompleteItem table (type.go lines 653 to 668): the five strings
plus the icase and dup bytes. -/
structure FlatCompleteItem where
  word : String := ""
  abbr : String := ""
  menu : String := ""
  info : String := ""
  kind : String := ""
  icase : Nat := 0
  dup : Nat := 0
deriving DecidableEq

/-- Icase decoding (type.go lines 627 to 629): stored byte compared
against zero. -/
def FlatCompleteItem.Icase (o : FlatCompleteItem) : Bool :=
  decide (o.icase ≠ 0)

/-- Dup decoding (type.go lines 632 to 634). -/
def FlatCompleteItem.Dup (o : FlatCompleteItem) : Bool :=
  decide (o.dup ≠ 0)

/-- The loop body of CompleteItem.Marshal (type.go lines 641 to 651): the
accumulator is (word, typ, placeholder). -/
def chunkStep (acc : String × String × String) (c : Chunk) : String × String × String :=
  match c.kind with
  | ChunkKind.typedText => (acc.1 ++ c.text, acc.2.1, acc.2.2 ++ c.text)
  | ChunkKind.resultType => (acc.1, acc.2.1 ++ c.text, acc.2.2)
  | ChunkKind.other => (acc.1, acc.2.1, acc.2.2 ++ c.text)

/-- CompleteItem.Marshal (type.go lines 637 to 669): folds the chunks and
writes word, abbr and info from the accumulators, an empty menu, kind from
typ, and both flag bytes as 1. -/
def CompleteItem.Marshal (chunks : List Chunk) : FlatCompleteItem :=
  let acc := chunks.foldl chunkStep ("", "", "")
  { word := acc.1, abbr := acc.2.2, menu := "", info := acc.2.2,
    kind := acc.2.1, icase := 1, dup := 1 }

/-- Decoded vim complete-items entry (type.go lines 586 to 596). -/
structure CompleteItem where
  word : String := ""
  abbr : String := ""
  menu : String := ""
  info : String := ""
  kind : String := ""
  icase : Bool := false
  dup : Bool := false
deriving DecidableEq

/-- Encoded CodeCompleteResults root table (type.go lines 671 to 678). -/
structure FlatCodeCompleteResults where
  results : List FlatCompleteItem := []
deriving DecidableEq

/-- Results accessor (type.go lines 691 to 711): one decoded item per stored
element, with icase and dup set to true unconditionally. -/
def CodeCompleteResults.Results (c : FlatCodeCompleteResults) : List CompleteItem :=
  c.results.map (fun o =>
    { word := o.word, abbr := o.abbr, menu := o.menu, info := o.info,
      kind := o.kind, icase := true, dup := true })

/-- CodeCompleteResults.Marshal (type.go lines 714 to 741), with the input
candidate list standing for the clang results, one chunk list per candidate.
When the candidate count is zero the Go code returns the fresh builder
without writing any root table and without calling Finish, so no decodable
root exists; that unfinished builder is modelled as none. -/
def CodeCompleteResults.Marshal (candidates : List (List Chunk)) :
    Option FlatCodeCompleteResults :=
  if candidates.length = 0 then none
  else some { results := candidates.map CompleteItem.Marshal }

/-- One build-mode mutation call of spec section 4.3, used to quantify over
files built purely through the mutation interface. -/
inductive Op where
  | addDecl (loc : Location)
  | addDefinition (loc def_ : Location)
  | addCaller (sym def_ : Location) (funcCall : Bool)
  | addHeader (includePath : String) (headerFile : ClangFile) (now : Int)
  | addTranslationUnit (buf : List Nat)
deriving DecidableEq

/-- Apply one mutation call to a build-mode File. -/
def applyOp (f : File) : Op → File
  | Op.addDecl loc => f.AddDecl loc
  | Op.addDefinition loc def_ => f.AddDefinition loc def_
  | Op.addCaller sym def_ fc => f.AddCaller sym def_ fc
  | Op.addHeader ip hf now => f.AddHeader ip hf now
  | Op.addTranslationUnit buf => f.AddTranslationUnit buf

/-- A File built purely via the section 4.3 mutation calls. -/
def buildFile (name : String) (flags : List String) (ops : List Op) : File :=
  ops.foldl applyOp (NewFile name flags)

/-- The decl-side indexing invariant: every Location held in the Decls of any Info is
mapped by the auxiliary index to the hash of its USR, which is the key its
owning Info is stored under. -/
def DeclIndexInvariant (f : File) : Prop :=
  ∀ id info, mapLookup f.symbols id = some info →
    ∀ loc, loc ∈ info.decls →
      id = ToID loc.usr ∧ mapLookup f.locations loc = some (ToID loc.usr)

/-- Spec-side concatenation of a list of chunk texts, used to state the
completion-conversion claim. -/
def textConcat : List String → String
  | [] => ""
  | s :: rest => s ++ textConcat rest

/-- Concrete declaration location used by the round-trip evaluation. -/
def c1Loc : Location :=
  { fileName := "a.c", line := 1, col := 2, offset := 3, usr := "u" }

/-- Concrete build-mode file for the round-trip evaluation: name, flags, a
translation unit, one declaration, one real header. -/
def c1File : File :=
  (((NewFile "a.c" ["-Iinclude"]).AddTranslationUnit [7]).AddDecl c1Loc).AddHeader
    "/usr/include/stddef.h" { name := "/usr/include/stddef.h", time := 42 } 100

/-- Concrete definition location for the isExist evaluation. -/
def c3Def : Location := { fileName := "d.c", line := 9, usr := "u" }

/-- Concrete first declaration location for the isExist evaluation. -/
def c3Loc : Location := { fileName := "a.c", line := 1, usr := "u" }

/-- Concrete second declaration location for the isExist evaluation. -/
def c3Loc2 : Location := { fileName := "a.c", line := 2, usr := "u" }

/-- Concrete caller location for the location-index counterexample. -/
def c9Sym : Location := { fileName := "a.c", line := 4, usr := "u" }

end ClangDB

namespace ClangDB

theorem mapLookup_assign_self {κ α : Type} [DecidableEq κ] (m : List (κ × α)) (k : κ) (v : α) :
    mapLookup (mapAssign m k v) k = some v := by
  induction m with
  | nil => simp [mapAssign, mapLookup]
  | cons p rest ih =>
    obtain ⟨k2, v2⟩ := p
    by_cases h : k = k2
    · simp [mapAssign, h, mapLookup]
    · simp [mapAssign, h, mapLookup, ih]

theorem mapLookup_assign_ne {κ α : Type} [DecidableEq κ] (m : List (κ × α)) (k k2 : κ) (v : α)
    (h : k ≠ k2) : mapLookup (mapAssign m k2 v) k = mapLookup m k := by
  induction m with
  | nil => simp [mapAssign, mapLookup, h]
  | cons p rest ih =>
    obtain ⟨k3, v3⟩ := p
    by_cases h2 : k2 = k3
    · subst h2
      simp [mapAssign, mapLookup, h]
    · simp [mapAssign, h2, mapLookup, ih]

theorem mapFilter_eq_nil {κ α : Type} [DecidableEq κ] (m : List (κ × α)) (k : κ)
    (h : k ∉ m.map Prod.fst) :
    m.filter (fun p => decide (p.1 = k)) = [] := by
  induction m with
  | nil => rfl
  | cons p rest ih =>
    have h1 : p.1 ≠ k := by
      intro e
      exact h (by simp [e])
    have h2 : k ∉ rest.map Prod.fst := by
      intro e
      exact h (by simp [e])
    simp [List.filter_cons, h1, ih h2]

theorem mapAssign_cons_self {κ α : Type} [DecidableEq κ] (rest : List (κ × α)) (k : κ)
    (v v2 : α) : mapAssign ((k, v2) :: rest) k v = (k, v) :: rest := by
  simp [mapAssign]

theorem mapAssign_cons_ne {κ α : Type} [DecidableEq κ] (rest : List (κ × α)) (k k2 : κ)
    (v v2 : α) (h : k ≠ k2) :
    mapAssign ((k2, v2) :: rest) k v = (k2, v2) :: mapAssign rest k v := by
  simp [mapAssign, h]

theorem mem_keys_mapAssign {κ α : Type} [DecidableEq κ] (m : List (κ × α)) (k a : κ) (v : α)
    (h : a ∈ (mapAssign m k v).map Prod.fst) : a = k ∨ a ∈ m.map Prod.fst := by
  induction m with
  | nil =>
    simp only [mapAssign, List.map_cons, List.map_nil, List.mem_singleton] at h
    exact Or.inl h
  | cons p rest ih =>
    obtain ⟨k2, v2⟩ := p
    by_cases h2 : k = k2
    · subst h2
      rw [mapAssign_cons_self, List.map_cons, List.mem_cons] at h
      rcases h with h | h
      · exact Or.inl h
      · exact Or.inr (List.mem_cons.mpr (Or.inr h))
    · rw [mapAssign_cons_ne rest k k2 v v2 h2, List.map_cons, List.mem_cons] at h
      rcases h with h | h
      · exact Or.inr (List.mem_cons.mpr (Or.inl h))
      · rcases ih h with h | h
        · exact Or.inl h
        · exact Or.inr (List.mem_cons.mpr (Or.inr h))

theorem wfMap_assign {κ α : Type} [DecidableEq κ] (m : List (κ × α)) (k : κ) (v : α)
    (h : WFMap m) : WFMap (mapAssign m k v) := by
  induction m with
  | nil => simp [WFMap, mapAssign]
  | cons p rest ih =>
    obtain ⟨k2, v2⟩ := p
    have hrest : WFMap rest := (List.nodup_cons.mp h).2
    have hk2 : k2 ∉ rest.map Prod.fst := (List.nodup_cons.mp h).1
    by_cases h2 : k = k2
    · subst h2
      show ((mapAssign ((k, v2) :: rest) k v).map Prod.fst).Nodup
      rw [mapAssign_cons_self, List.map_cons]
      exact List.nodup_cons.mpr ⟨hk2, hrest⟩
    · show ((mapAssign ((k2, v2) :: rest) k v).map Prod.fst).Nodup
      rw [mapAssign_cons_ne rest k k2 v v2 h2, List.map_cons]
      refine List.nodup_cons.mpr ⟨?_, ih hrest⟩
      intro hmem
      rcases mem_keys_mapAssign rest k k2 v hmem with e | e
      · exact h2 e.symm
      · exact hk2 e

theorem mapFilter_assign {κ α : Type} [DecidableEq κ] (m : List (κ × α)) (k : κ) (v : α)
    (h : WFMap m) :
    (mapAssign m k v).filter (fun p => decide (p.1 = k)) = [(k, v)] := by
  induction m with
  | nil => simp [mapAssign, List.filter_cons]
  | cons p rest ih =>
    obtain ⟨k2, v2⟩ := p
    have hrest : WFMap rest := (List.nodup_cons.mp h).2
    have hk2 : k2 ∉ rest.map Prod.fst := (List.nodup_cons.mp h).1
    by_cases h2 : k = k2
    · subst h2
      simp [mapAssign, List.filter_cons, mapFilter_eq_nil rest k hk2]
    · have h3 : k2 ≠ k := fun e => h2 e.symm
      simp [mapAssign, h2, List.filter_cons, h3, ih hrest]

end ClangDB

namespace ClangDB

theorem addSymbol_symbols (f : File) (loc d : Location) :
    (f.addSymbol loc d).symbols =
      mapAssign f.symbols (ToID loc.usr)
        { (mapLookup f.symbols (ToID loc.usr)).getD { id := ToID loc.usr } with
          decls := ((mapLookup f.symbols (ToID loc.usr)).getD { id := ToID loc.usr }).decls
            ++ [loc],
          def_ := d } := by
  cases hm : mapLookup f.symbols (ToID loc.usr) <;>
    simp [File.addSymbol, Location.isExist, reflectDeepEqualPtrVal, hm]

theorem addSymbol_locations (f : File) (loc d : Location) :
    (f.addSymbol loc d).locations = mapAssign f.locations loc (ToID loc.usr) := by
  cases hm : mapLookup f.symbols (ToID loc.usr) <;>
    simp [File.addSymbol, Location.isExist, reflectDeepEqualPtrVal, hm]

theorem addCaller_symbols (f : File) (sym d : Location) (fc : Bool) :
    (f.AddCaller sym d fc).symbols =
      mapAssign f.symbols (ToID sym.usr)
        { (mapLookup f.symbols (ToID sym.usr)).getD { id := ToID sym.usr } with
          callers := ((mapLookup f.symbols (ToID sym.usr)).getD { id := ToID sym.usr }).callers
            ++ [{ location := sym, funcCall := fc }] } := by
  cases hm : mapLookup f.symbols (ToID sym.usr) <;>
    simp [File.AddCaller, hm]

theorem addCaller_locations (f : File) (sym d : Location) (fc : Bool) :
    (f.AddCaller sym d fc).locations = f.locations := by
  cases hm : mapLookup f.symbols (ToID sym.usr) <;>
    simp [File.AddCaller, hm]

end ClangDB

namespace ClangDB

/-- C2: on any build-mode File with a well-formed symbol table, calling
AddDefinition(loc, def1) then AddDefinition(loc2, def2) with the same USR u,
both definitions existing, yields exactly one Info for u (the filtered table
has exactly the one entry) whose Def equals def2 and whose Decls end with
loc followed by loc2. -/
theorem c2_addDefinition_overwrite (f : File) (loc loc2 def1 def2 : Location) (u : String)
    (h1 : loc.usr = u) (h2 : loc2.usr = u)
    (hd1 : def1.isExist = true) (hd2 : def2.isExist = true)
    (hwf : WFMap f.symbols) :
    ∃ info : Info,
      mapLookup ((f.AddDefinition loc def1).AddDefinition loc2 def2).symbols (ToID u)
          = some info
      ∧ ((f.AddDefinition loc def1).AddDefinition loc2 def2).symbols.filter
          (fun p => decide (p.1 = ToID u)) = [(ToID u, info)]
      ∧ info.def_ = def2
      ∧ ∃ pre, info.decls = pre ++ [loc, loc2] := by
  subst h1
  have hl2 : ToID loc2.usr = ToID loc.usr := by rw [h2]
  set old : Info := (mapLookup f.symbols (ToID loc.usr)).getD { id := ToID loc.usr } with hold
  set i1 : Info := { old with decls := old.decls ++ [loc], def_ := def1 } with hi1
  set i2 : Info := { i1 with decls := i1.decls ++ [loc2], def_ := def2 } with hi2
  have hs1 : (f.AddDefinition loc def1).symbols = mapAssign f.symbols (ToID loc.usr) i1 := by
    rw [File.AddDefinition, addSymbol_symbols]
  have hlook1 : mapLookup (f.AddDefinition loc def1).symbols (ToID loc.usr) = some i1 := by
    rw [hs1]
    exact mapLookup_assign_self f.symbols (ToID loc.usr) i1
  have hs2 : ((f.AddDefinition loc def1).AddDefinition loc2 def2).symbols
      = mapAssign (mapAssign f.symbols (ToID loc.usr) i1) (ToID loc.usr) i2 := by
    rw [File.AddDefinition, addSymbol_symbols, hl2, hlook1, hs1]
    rfl
  refine ⟨i2, ?_, ?_, rfl, old.decls, ?_⟩
  · rw [hs2]
    exact mapLookup_assign_self _ (ToID loc.usr) i2
  · rw [hs2]
    exact mapFilter_assign _ (ToID loc.usr) i2
      (wfMap_assign f.symbols (ToID loc.usr) i1 hwf)
  · show i1.decls ++ [loc2] = old.decls ++ [loc, loc2]
    rw [hi1]
    exact (List.append_assoc old.decls [loc] [loc2]).symm ▸ rfl

/-- C2 witness: the two overwriting AddDefinition calls evaluated on a fresh
file with concrete locations. -/
theorem c2_addDefinition_overwrite_witness :
    ∃ info : Info,
      mapLookup (((NewFile "w.c" []).AddDefinition c3Loc c3Def).AddDefinition c3Loc2
          { fileName := "d.c", line := 10, usr := "u" }).symbols (ToID "u") = some info
      ∧ (((NewFile "w.c" []).AddDefinition c3Loc c3Def).AddDefinition c3Loc2
          { fileName := "d.c", line := 10, usr := "u" }).symbols.filter
          (fun p => decide (p.1 = ToID "u")) = [(ToID "u", info)]
      ∧ info.def_ = { fileName := "d.c", line := 10, usr := "u" }
      ∧ ∃ pre, info.decls = pre ++ [c3Loc, c3Loc2] :=
  c2_addDefinition_overwrite (NewFile "w.c" []) c3Loc c3Loc2 c3Def
    { fileName := "d.c", line := 10, usr := "u" } "u" rfl rfl rfl rfl
    (by simp [NewFile, WFMap])

end ClangDB

namespace ClangDB

/-- C5: on any build-mode File whose table is well-formed and holds no Info
for the USR u, one AddCaller(sym, def, true) call with sym.usr = u yields
exactly one Info for u with zero Decls, the zero-valued (absent) Def, and
one Caller carrying sym and a true flag; and AddCaller leaves the Decls and
Def of every previously stored Info unchanged. -/
theorem c5_addCaller_fresh (f : File) (sym d : Location) (u : String)
    (husr : sym.usr = u)
    (hfresh : mapLookup f.symbols (ToID u) = none)
    (hwf : WFMap f.symbols) :
    mapLookup (f.AddCaller sym d true).symbols (ToID u)
        = some { id := ToID u, decls := [], def_ := Location.zero,
                 callers := [{ location := sym, funcCall := true }] }
  ∧ (f.AddCaller sym d true).symbols.filter (fun p => decide (p.1 = ToID u))
      = [(ToID u, { id := ToID u, decls := [], def_ := Location.zero,
                    callers := [{ location := sym, funcCall := true }] })]
  ∧ (∀ id i, mapLookup f.symbols id = some i →
      ∃ i2, mapLookup (f.AddCaller sym d true).symbols id = some i2
        ∧ i2.decls = i.decls ∧ i2.def_ = i.def_) := by
  subst husr
  have hs := addCaller_symbols f sym d true
  rw [hfresh] at hs
  have hval : ({ (none : Option Info).getD { id := ToID sym.usr } with
      callers := ((none : Option Info).getD { id := ToID sym.usr }).callers
        ++ [{ location := sym, funcCall := true }] } : Info)
      = { id := ToID sym.usr, decls := [], def_ := Location.zero,
          callers := [{ location := sym, funcCall := true }] } := rfl
  rw [hval] at hs
  refine ⟨?_, ?_, ?_⟩
  · rw [hs]
    exact mapLookup_assign_self _ _ _
  · rw [hs]
    exact mapFilter_assign _ _ _ hwf
  · intro id i hi
    by_cases hid : id = ToID sym.usr
    · rw [hid, hfresh] at hi
      exact Option.noConfusion hi
    · refine ⟨i, ?_, rfl, rfl⟩
      rw [hs, mapLookup_assign_ne _ _ _ _ hid]
      exact hi

/-- C5 witness: one AddCaller call on a fresh file with a concrete caller
location. -/
theorem c5_addCaller_fresh_witness :
    mapLookup ((NewFile "w2.c" []).AddCaller c9Sym Location.zero true).symbols (ToID "u")
        = some { id := ToID "u", decls := [], def_ := Location.zero,
                 callers := [{ location := c9Sym, funcCall := true }] }
  ∧ ((NewFile "w2.c" []).AddCaller c9Sym Location.zero true).symbols.filter
        (fun p => decide (p.1 = ToID "u"))
      = [(ToID "u", { id := ToID "u", decls := [], def_ := Location.zero,
                      callers := [{ location := c9Sym, funcCall := true }] })]
  ∧ (∀ id i, mapLookup (NewFile "w2.c" []).symbols id = some i →
      ∃ i2, mapLookup ((NewFile "w2.c" []).AddCaller c9Sym Location.zero true).symbols id
          = some i2 ∧ i2.decls = i.decls ∧ i2.def_ = i.def_) :=
  c5_addCaller_fresh (NewFile "w2.c" []) c9Sym Location.zero "u" rfl rfl
    (by simp [NewFile, WFMap])

end ClangDB

namespace ClangDB

theorem declIndexInvariant_addSymbol (f : File) (loc d : Location)
    (h : DeclIndexInvariant f) : DeclIndexInvariant (f.addSymbol loc d) := by
  intro id info hlook loc2 hmem
  rw [addSymbol_symbols] at hlook
  rw [addSymbol_locations]
  have hold : ∀ l ∈ ((mapLookup f.symbols (ToID loc.usr)).getD { id := ToID loc.usr }).decls,
      ToID loc.usr = ToID l.usr ∧ mapLookup f.locations l = some (ToID l.usr) := by
    cases hm : mapLookup f.symbols (ToID loc.usr) with
    | none =>
      intro l hl
      exact absurd hl (by simp [Option.getD])
    | some s =>
      intro l hl
      exact h (ToID loc.usr) s hm l (by simpa [Option.getD] using hl)
  have hLocNew : ∀ l : Location, (l = loc ∨ mapLookup f.locations l = some (ToID l.usr)) →
      mapLookup (mapAssign f.locations loc (ToID loc.usr)) l = some (ToID l.usr) := by
    intro l hl
    by_cases he : l = loc
    · subst he
      exact mapLookup_assign_self _ _ _
    · rcases hl with he2 | hl
      · exact absurd he2 he
      · rw [mapLookup_assign_ne _ _ _ _ he]
        exact hl
  by_cases hid : id = ToID loc.usr
  · subst hid
    rw [mapLookup_assign_self] at hlook
    injection hlook with h3
    subst h3
    have hmem2 : loc2 ∈ ((mapLookup f.symbols (ToID loc.usr)).getD
        { id := ToID loc.usr }).decls ++ [loc] := hmem
    rcases List.mem_append.mp hmem2 with hm2 | hm2
    · obtain ⟨ha, hb⟩ := hold loc2 hm2
      exact ⟨ha, hLocNew loc2 (Or.inr hb)⟩
    · have he : loc2 = loc := by simpa using hm2
      subst he
      exact ⟨rfl, hLocNew loc2 (Or.inl rfl)⟩
  · rw [mapLookup_assign_ne _ _ _ _ hid] at hlook
    obtain ⟨ha, hb⟩ := h id info hlook loc2 hmem
    exact ⟨ha, hLocNew loc2 (Or.inr hb)⟩

theorem declIndexInvariant_addCaller (f : File) (sym d : Location) (fc : Bool)
    (h : DeclIndexInvariant f) : DeclIndexInvariant (f.AddCaller sym d fc) := by
  intro id info hlook loc2 hmem
  rw [addCaller_symbols] at hlook
  rw [addCaller_locations]
  by_cases hid : id = ToID sym.usr
  · subst hid
    rw [mapLookup_assign_self] at hlook
    injection hlook with h3
    subst h3
    have hmem2 : loc2 ∈ ((mapLookup f.symbols (ToID sym.usr)).getD
        { id := ToID sym.usr }).decls := hmem
    cases hm : mapLookup f.symbols (ToID sym.usr) with
    | none =>
      rw [hm] at hmem2
      exact absurd hmem2 (by simp [Option.getD])
    | some s =>
      rw [hm] at hmem2
      exact h (ToID sym.usr) s hm loc2 (by simpa [Option.getD] using hmem2)
  · rw [mapLookup_assign_ne _ _ _ _ hid] at hlook
    exact h id info hlook loc2 hmem

theorem declIndexInvariant_applyOp (f : File) (op : Op)
    (h : DeclIndexInvariant f) : DeclIndexInvariant (applyOp f op) := by
  cases op with
  | addDecl loc => exact declIndexInvariant_addSymbol f loc {} h
  | addDefinition loc d => exact declIndexInvariant_addSymbol f loc d h
  | addCaller sym d fc => exact declIndexInvariant_addCaller f sym d fc h
  | addHeader ip hf now =>
    intro id info hlook loc hmem
    exact h id info hlook loc hmem
  | addTranslationUnit buf =>
    intro id info hlook loc hmem
    exact h id info hlook loc hmem

theorem declIndexInvariant_foldl (f : File) (ops : List Op)
    (h : DeclIndexInvariant f) : DeclIndexInvariant (ops.foldl applyOp f) := by
  induction ops generalizing f with
  | nil => exact h
  | cons op rest ih => exact ih _ (declIndexInvariant_applyOp f op h)

theorem declIndexInvariant_newFile (name : String) (flags : List String) :
    DeclIndexInvariant (NewFile name flags) := by
  intro id info hlook
  exact absurd hlook (by simp [NewFile, mapLookup])

end ClangDB

namespace ClangDB

/-- C9 counterexample: one AddCaller call on a fresh file stores its
Location inside the Callers of the new Info, yet the auxiliary Location-to-ID
index does not map that Location (AddCaller never writes the index), so the
claimed both-structures invariant fails. -/
theorem c9_caller_location_counterexample :
    ((mapLookup (buildFile "a.c" [] [Op.addCaller c9Sym Location.zero true]).symbols
        (ToID "u")).map (fun i => i.callers))
      = some [{ location := c9Sym, funcCall := true }]
  ∧ mapLookup (buildFile "a.c" [] [Op.addCaller c9Sym Location.zero true]).locations c9Sym
      = none := by
  exact ⟨by decide, by decide⟩

/-- C9 amended: on any File built purely via the section 4.3 mutation calls,
every Location held in the Decls of some Info is mapped by the auxiliary index to
the key of the owning Info, which is the hash of the USR of that Location; Caller
locations are exempt because AddCaller never writes the index. -/
theorem c9_decl_locations_indexed (name : String) (flags : List String) (ops : List Op)
    (id : ID) (info : Info) (loc : Location)
    (hsym : mapLookup (buildFile name flags ops).symbols id = some info)
    (hloc : loc ∈ info.decls) :
    id = ToID loc.usr
  ∧ mapLookup (buildFile name flags ops).locations loc = some id := by
  have h := declIndexInvariant_foldl (NewFile name flags) ops
    (declIndexInvariant_newFile name flags) id info hsym loc hloc
  refine ⟨h.1, ?_⟩
  rw [h.1]
  exact h.2

/-- C9 witness: the amended invariant evaluated after one concrete AddDecl
call. -/
theorem c9_decl_locations_indexed_witness :
    (ToID "u") = ToID c9Sym.usr
  ∧ mapLookup (buildFile "a.c" [] [Op.addDecl c9Sym]).locations c9Sym = some (ToID "u") :=
  c9_decl_locations_indexed "a.c" [] [Op.addDecl c9Sym] (ToID "u")
    { id := ToID "u", decls := [c9Sym], def_ := Location.zero, callers := [], info := none }
    c9Sym (by decide) (by decide)

end ClangDB

namespace ClangDB

/-- C1: at the concrete build-mode file c1File, Serialize stores the
rendered ID and FileID strings, and the view accessors re-hash them on read:
the ID (and header FileID) read back through the view is the hash of the
stored string, not the identifier stored at build time, while Decls and the
other Location and Header observations do round-trip. -/
theorem c1_roundtrip_id_rehash :
    c1File.Serialize = some
      { name := "a.c", flags := ["-Iinclude"], translationUnit := [7],
        symbols := [{ id := (ToID "u").String, decls := [c1Loc.serialize],
                      def_ := {}, callers := [] }],
        headers := [{ fileID := (ToFileID "/usr/include/stddef.h").String, mtime := 42 }] }
  ∧ (Info.ofView { id := (ToID "u").String, decls := [c1Loc.serialize],
                   def_ := {}, callers := [] }).ID = some (ToID ((ToID "u").String))
  ∧ ToID ((ToID "u").String) ≠ ToID "u"
  ∧ (Header.ofView { fileID := (ToFileID "/usr/include/stddef.h").String, mtime := 42 }).FileID
      = some (ToFileID ((ToFileID "/usr/include/stddef.h").String))
  ∧ ToFileID ((ToFileID "/usr/include/stddef.h").String) ≠ ToFileID "/usr/include/stddef.h"
  ∧ (Info.ofView { id := (ToID "u").String, decls := [c1Loc.serialize],
                   def_ := {}, callers := [] }).Decls
      = some [Location.ofView c1Loc.serialize]
  ∧ (Location.ofView c1Loc.serialize).FileName = c1Loc.fileName
  ∧ (Location.ofView c1Loc.serialize).USR = c1Loc.usr
  ∧ (Location.ofView c1Loc.serialize).Line = some c1Loc.line
  ∧ (Header.ofView { fileID := (ToFileID "/usr/include/stddef.h").String, mtime := 42 }).Mtime
      = some 42 :=
  ⟨rfl, rfl, by decide, rfl, by decide, rfl, rfl, rfl, rfl, rfl⟩

/-- C3: the isExist of src/symbol/type.go compares a pointer against a
value, so it is true even on the all-zero Location, and a subsequent AddDecl
therefore overwrites a previously recorded definition with the zero
Location; the value-receiver isExist of src/unnamed/part_001 is false
exactly on the zero value, matching the claimed predicate. -/
theorem c3_isExist_constant_eval :
    Location.zero.isExist = true
  ∧ Location.isExistVal Location.zero = false
  ∧ (∀ l : Location, Location.isExistVal l = true ↔ l ≠ Location.zero)
  ∧ (mapLookup (((NewFile "a.c" []).AddDefinition c3Loc c3Def).AddDecl c3Loc2).symbols
        (ToID "u")).map Info.def_ = some Location.zero := by
  refine ⟨rfl, by decide, ?_, by decide⟩
  intro l
  by_cases h : l = Location.zero <;> simp [Location.isExistVal, h]

/-- C4: with an empty resolved header name, AddHeader builds the sentinel
from the cleaned empty resolved name and ignores the include path, so the
stored FileID is the constant hash of IDoNotReallyExist-. and differs from
the hash of IDoNotReallyExist- followed by the basename of the original
header path; the mtimes and the non-empty branch behave as claimed. -/
theorem c4_addHeader_sentinel :
    (∀ (f : File) (includePath : String) (t now : Int),
      (f.AddHeader includePath { name := "", time := t } now).headers
        = f.headers ++ [some { fileid := ToFileID "IDoNotReallyExist-.", mtime := now }])
  ∧ ((NewFile "a.c" []).AddHeader "/usr/include/stddef.h" { name := "", time := 0 } 100).headers
      = [some { fileid := ToFileID "IDoNotReallyExist-.", mtime := 100 }]
  ∧ ToFileID "IDoNotReallyExist-."
      ≠ ToFileID ("IDoNotReallyExist-" ++ filepathBase "/usr/include/stddef.h")
  ∧ (∀ (f : File) (includePath nm : String) (t now : Int), nm ≠ "" →
      (f.AddHeader includePath { name := nm, time := t } now).headers
        = f.headers ++ [some { fileid := ToFileID (filepathClean nm), mtime := t }]) := by
  have hsent : notExistHeaderName (filepathClean "") = "IDoNotReallyExist-." := by decide
  refine ⟨?_, by decide, by decide, ?_⟩
  · intro f ip t now
    simp [File.AddHeader, hsent]
  · intro f ip nm t now hnm
    simp [File.AddHeader, hnm]

/-- C4 witness: the non-empty branch of AddHeader evaluated with a concrete
resolved header name. -/
theorem c4_addHeader_sentinel_witness :
    ((NewFile "b.c" []).AddHeader "x/y.h" { name := "/usr/include/y.h", time := 5 } 9).headers
      = [some { fileid := ToFileID "/usr/include/y.h", mtime := 5 }] := by
  have h := c4_addHeader_sentinel.2.2.2 (NewFile "b.c" []) "x/y.h" "/usr/include/y.h" 5 9
    (by decide)
  have e : filepathClean "/usr/include/y.h" = "/usr/include/y.h" := by decide
  rw [e] at h
  simpa [NewFile] using h

end ClangDB

namespace ClangDB

theorem chunkFold_spec (chunks : List Chunk) (w t p : String) :
    chunks.foldl chunkStep (w, t, p)
      = (w ++ textConcat ((chunks.filter (fun c => c.kind == ChunkKind.typedText)).map Chunk.text),
         t ++ textConcat ((chunks.filter (fun c => c.kind == ChunkKind.resultType)).map Chunk.text),
         p ++ textConcat ((chunks.filter (fun c => !(c.kind == ChunkKind.resultType))).map Chunk.text)) := by
  induction chunks generalizing w t p with
  | nil => simp [textConcat]
  | cons c rest ih =>
    cases hk : c.kind <;>
      simp [List.foldl_cons, chunkStep, hk, ih, List.filter_cons, textConcat,
        String.append_assoc]

/-- C6: for every chunk sequence of one candidate, the marshalled item has
word equal to the concatenation of the typed-text chunk texts, its kind the
concatenation of the result-type chunk texts, its abbr and info both the
concatenation of all non-result-type chunk texts in order, its menu empty,
and its icase and dup bytes unconditionally 1, decoding to true; the spec
example chunk list evaluates to exactly the claimed item. -/
theorem c6_completeItem_marshal (chunks : List Chunk) :
    (CompleteItem.Marshal chunks).word
        = textConcat ((chunks.filter (fun c => c.kind == ChunkKind.typedText)).map Chunk.text)
  ∧ (CompleteItem.Marshal chunks).kind
        = textConcat ((chunks.filter (fun c => c.kind == ChunkKind.resultType)).map Chunk.text)
  ∧ (CompleteItem.Marshal chunks).abbr
        = textConcat ((chunks.filter (fun c => !(c.kind == ChunkKind.resultType))).map Chunk.text)
  ∧ (CompleteItem.Marshal chunks).info = (CompleteItem.Marshal chunks).abbr
  ∧ (CompleteItem.Marshal chunks).menu = ""
  ∧ (CompleteItem.Marshal chunks).Icase = true
  ∧ (CompleteItem.Marshal chunks).Dup = true
  ∧ CompleteItem.Marshal
        [{ kind := ChunkKind.typedText, text := "foo" },
         { kind := ChunkKind.resultType, text := "int" },
         { kind := ChunkKind.other, text := " " }]
      = { word := "foo", abbr := "foo ", menu := "", info := "foo ",
          kind := "int", icase := 1, dup := 1 } := by
  have h := chunkFold_spec chunks "" "" ""
  refine ⟨?_, ?_, ?_, rfl, rfl, rfl, rfl, by decide⟩
  all_goals simp [CompleteItem.Marshal, h, String.empty_append]

/-- C7 counterexample: marshalling zero candidates returns the untouched
builder, with no root table written and no finish marker, modelled as none,
so no view with an empty Results sequence exists. -/
theorem c7_marshal_empty_counterexample :
    CodeCompleteResults.Marshal [] = none
  ∧ ¬ ∃ flat, CodeCompleteResults.Marshal [] = some flat
      ∧ (CodeCompleteResults.Results flat).length = 0 := by
  refine ⟨rfl, ?_⟩
  rintro ⟨flat, hflat, -⟩
  exact Option.noConfusion hflat

/-- C7 amended: marshalling zero candidates returns the fresh builder with
no root table and no finish marker (none); for one or more candidates the
buffer is finished and decodes to exactly one item per candidate, in
order. -/
theorem c7_marshal_amended (candidates : List (List Chunk)) (h : candidates ≠ []) :
    ∃ flat, CodeCompleteResults.Marshal candidates = some flat
      ∧ flat.results = candidates.map CompleteItem.Marshal
      ∧ (CodeCompleteResults.Results flat).length = candidates.length := by
  refine ⟨{ results := candidates.map CompleteItem.Marshal }, ?_, rfl, ?_⟩
  · simp [CodeCompleteResults.Marshal, List.length_eq_zero, h]
  · simp [CodeCompleteResults.Results, List.length_map]

/-- C7 witness: the amended statement evaluated at one concrete candidate. -/
theorem c7_marshal_amended_witness :
    ∃ flat, CodeCompleteResults.Marshal [[{ kind := ChunkKind.typedText, text := "a" }]]
        = some flat
      ∧ flat.results
          = ([[{ kind := ChunkKind.typedText, text := "a" }]] :
              List (List Chunk)).map CompleteItem.Marshal
      ∧ (CodeCompleteResults.Results flat).length = 1 :=
  c7_marshal_amended [[{ kind := ChunkKind.typedText, text := "a" }]] (by decide)

/-- C8 counterexample: on a buffer-less Location with in-memory line 5, the
Line accessor does not return the non-empty in-memory value but faults on
the nil backing pointer; and FileName switches on buffer presence rather
than value emptiness, returning the buffer value even though the in-memory
value is non-empty. -/
theorem c8_accessor_counterexample :
    Location.Line { line := 5 } = none
  ∧ Location.Line { line := 5 } ≠ some 5
  ∧ Location.FileName { fileName := "mem.c", location := some { fileName := "buf.c" } }
      = "buf.c" :=
  ⟨rfl, by decide, rfl⟩

/-- C8 amended: the non-empty-fallback contract holds for File.Name,
File.Flags and File.TranslationUnit; Location.FileName and Location.USR
fall back on buffer absence instead of value emptiness; Location.Line, Col
and Offset read only the backing buffer and fault (none) on a buffer-less
instance. -/
theorem c8_accessor_contract_amended :
    (∀ f : File, f.name ≠ "" → File.Name f = some f.name)
  ∧ (∀ f : File, f.name = "" → File.Name f = f.file.map (fun fl => fl.name))
  ∧ (∀ f : File, f.flags ≠ [] → File.Flags f = some f.flags)
  ∧ (∀ f : File, f.flags = [] → File.Flags f = f.file.map (fun fl => fl.flags))
  ∧ (∀ f : File, f.translationUnit ≠ [] → File.TranslationUnit f = some f.translationUnit)
  ∧ (∀ f : File, f.translationUnit = [] →
      File.TranslationUnit f = f.file.map (fun fl => fl.translationUnit))
  ∧ (∀ l : Location, l.location = none →
      Location.FileName l = l.fileName ∧ Location.USR l = l.usr
      ∧ Location.Line l = none ∧ Location.Col l = none ∧ Location.Offset l = none)
  ∧ (∀ (l : Location) (fl : FlatLocation), l.location = some fl →
      Location.FileName l = fl.fileName ∧ Location.USR l = fl.usr
      ∧ Location.Line l = some fl.line ∧ Location.Col l = some fl.col
      ∧ Location.Offset l = some fl.offset) := by
  refine ⟨?_, ?_, ?_, ?_, ?_, ?_, ?_, ?_⟩
  · intro f h
    simp [File.Name, h]
  · intro f h
    simp [File.Name, h]
  · intro f h
    simp [File.Flags, List.length_pos.mpr h]
  · intro f h
    simp [File.Flags, h]
  · intro f h
    simp [File.TranslationUnit, List.length_pos.mpr h]
  · intro f h
    simp [File.TranslationUnit, h]
  · intro l h
    simp [Location.FileName, Location.USR, Location.Line, Location.Col, Location.Offset, h]
  · intro l fl h
    simp [Location.FileName, Location.USR, Location.Line, Location.Col, Location.Offset, h]

/-- C8 witness: the amended accessor contract evaluated at concrete build
and view instances. -/
theorem c8_accessor_contract_amended_witness :
    File.Name { name := "n.c" } = some "n.c"
  ∧ File.Flags (GetRootAsFile { flags := ["-g"] }) = some ["-g"]
  ∧ Location.FileName { fileName := "m.c" } = "m.c"
  ∧ Location.Line (Location.ofView { line := 6 }) = some 6 := by
  have h := c8_accessor_contract_amended
  refine ⟨h.1 { name := "n.c" } (by decide), ?_, ?_, ?_⟩
  · have h4 := h.2.2.2.1 (GetRootAsFile { flags := ["-g"] }) rfl
    simpa [GetRootAsFile] using h4
  · exact (h.2.2.2.2.2.2.1 { fileName := "m.c" } rfl).1
  · exact (h.2.2.2.2.2.2.2 (Location.ofView { line := 6 }) { line := 6 } rfl).2.2.1

end ClangDB

namespace ClangDB

theorem unmarshalInfos_map (l : List FlatInfo) :
    unmarshalInfos (l.map (fun s => some (Info.ofView s)))
      = some (l.map (fun fi => ((ToID fi.id),
          ({ id := ToID fi.id, decls := fi.decls.map Location.ofView,
             def_ := Location.ofView fi.def_, callers := fi.callers.map Caller.ofView,
             info := some fi } : Info)))) := by
  induction l with
  | nil => rfl
  | cons a rest ih =>
    have h1 : unmarshalInfo (some (Info.ofView a))
        = some ((ToID a.id),
            ({ id := ToID a.id, decls := a.decls.map Location.ofView,
               def_ := Location.ofView a.def_, callers := a.callers.map Caller.ofView,
               info := some a } : Info)) := rfl
    simp [unmarshalInfos, h1, ih]

/-- C10: on a build-mode File holding n Info records, n positive, the
Symbols accessor returns a slice of length 2n whose first n entries are nil
and whose last n entries are the records, because the slice is allocated
with length n and the records are appended; and Unmarshal of a pure view
pads the rebuilt headers list with one leading nil per decoded header the
same way. -/
theorem c10_symbols_padding (f : File) (h : f.symbols ≠ []) (g : File) (fl : FlatFile)
    (hg : g.file = some fl) (hgs : g.symbols = []) (hgh : g.headers = []) :
    File.Symbols f
        = some (List.replicate f.symbols.length none
            ++ f.symbols.map (fun p => some p.2))
  ∧ (File.Symbols f).map List.length = some (2 * f.symbols.length)
  ∧ (g.Unmarshal).map (fun x => x.headers)
      = some (List.replicate fl.headers.length none
          ++ fl.headers.map (fun h2 => some (Header.ofView h2))) := by
  have hlen : f.symbols.length > 0 := List.length_pos.mpr h
  have hsymacc : File.Symbols f
      = some (List.replicate f.symbols.length none
          ++ f.symbols.map (fun p => some p.2)) := by
    simp [File.Symbols, hlen]
  refine ⟨hsymacc, ?_, ?_⟩
  · rw [hsymacc]
    simp [List.length_append, List.length_replicate, List.length_map, two_mul]
  · have hsy : g.Symbols = some (fl.symbols.map (fun s => some (Info.ofView s))) := by
      simp [File.Symbols, hgs, hg]
    have hhd : g.Headers = some (fl.headers.map (fun h2 => some (Header.ofView h2))) := by
      simp [File.Headers, hgh, hg]
    simp [File.Unmarshal, hg, hsy, hhd, unmarshalInfos_map, List.length_map]

/-- C10 witness: Symbols of a file holding one record, and Unmarshal of a
view holding one header. -/
theorem c10_symbols_padding_witness :
    File.Symbols { symbols := [(ToID "u", { id := ToID "u" })] }
        = some [none, some { id := ToID "u" }]
  ∧ ((GetRootAsFile { headers := [{ fileID := "x", mtime := 3 }] }).Unmarshal).map
        (fun x => x.headers)
      = some [none, some (Header.ofView { fileID := "x", mtime := 3 })] := by
  have h := c10_symbols_padding { symbols := [(ToID "u", { id := ToID "u" })] } (by decide)
    (GetRootAsFile { headers := [{ fileID := "x", mtime := 3 }] })
    { headers := [{ fileID := "x", mtime := 3 }] } rfl rfl rfl
  exact ⟨by simpa using h.1, by simpa using h.2.2⟩

end ClangDB
